import Mathlib

/-!
Shallow embedding of the rheas queue core (src/baseJob.ts, src/baseQueue.ts and
the in-memory backend) together with theorems checking the natural-language
specification against it.

Conventions of the embedding:
* JS numbers holding epoch milliseconds / counters are modelled as `Int`
  (they are only added and compared); the seconds argument of `setTimeout`
  and `retryAfter` is a rational, since it is multiplied by 1000 and truncated.
* `Date.now()` is passed around explicitly as a `now : Int` parameter.
* A job object is an immutable record; JS reference identity used by
  `Array.prototype.indexOf` is modelled by structural equality (concrete
  jobs are distinguished by their `id` field).
* Hooks (`onSuccess`, ...) are modelled by a flag on the job saying whether
  the hook throws; invoking a hook yields `Except String Unit` and is recorded
  in an event trace.
* Operations that in TypeScript return a promise are modelled as functions
  returning `Except String` of their result: `.ok` is a resolved promise,
  `.error` a rejected one.
-/

namespace RheasQueue

/-- `Math.trunc` on a rational: rounding toward zero. -/
def ratTrunc (x : ℚ) : Int :=
  if 0 ≤ x then ⌊x⌋ else ⌈x⌉

/-- The scheduling state of a job, from the fields of `BaseJob` (baseJob.ts).
`data`/`metaData` carry no behaviour used by the core and are omitted; the
overridable hooks are represented by the three `...Throws` flags telling
whether the hook raises. -/
structure Job where
  id : Nat
  queueName : String
  maxAttempts : Int
  attempts : Int
  retryWaitInMillis : Int
  lockedAt : Int
  availableAt : Int
  cancelled : Bool
  onSuccessThrows : Bool
  onFailureThrows : Bool
  onPermanentFailureThrows : Bool
deriving DecidableEq, Repr

/-- `BaseJob` constructor together with the field initialisers
(`_maxAttempts = 5`, `_attempts = 0`, `_retryWaitInMillis = 0`,
`_lockedAt = 0`, `_availableAt = Date.now()`, `_cancelled = false`).
The hook flags are fixed by the concrete job subclass. -/
def Job.new (id : Nat) (now : Int) (sThrows fThrows pThrows : Bool) : Job where
  id := id
  queueName := ""
  maxAttempts := 5
  attempts := 0
  retryWaitInMillis := 0
  lockedAt := 0
  availableAt := now
  cancelled := false
  onSuccessThrows := sThrows
  onFailureThrows := fThrows
  onPermanentFailureThrows := pThrows

/-- `BaseJob.onQueue`. -/
def Job.onQueue (j : Job) (queue : String) : Job :=
  { j with queueName := queue }

/-- `BaseJob.maxAttempts(attempts)` (setter; named apart from the field). -/
def Job.setMaxAttempts (j : Job) (attempts : Int) : Job :=
  { j with maxAttempts := attempts }

/-- `BaseJob.retryAfter(seconds)`: `_retryWaitInMillis = Math.trunc(seconds * 1000)`. -/
def Job.retryAfter (j : Job) (seconds : ℚ) : Job :=
  { j with retryWaitInMillis := ratTrunc (seconds * 1000) }

/-- `BaseJob.later(later)`: `_availableAt = later.atTime()`. -/
def Job.later (j : Job) (atTime : Int) : Job :=
  { j with availableAt := atTime }

/-- The effect of `BaseJob.cancel()` on the job object itself:
`_cancelled = true`.  (The call into the queue manager to remove the job
is outside the stored-job state modelled here.) -/
def Job.cancel (j : Job) : Job :=
  { j with cancelled := true }

/-- `BaseJob.triedMaxAttempts()`: `attempts() >= maxAttempts`. -/
def Job.triedMaxAttempts (j : Job) : Bool :=
  decide (j.maxAttempts ≤ j.attempts)

/-- `BaseJob.isStillLocked()`: `Date.now() < _retryWaitInMillis + _lockedAt`. -/
def Job.isStillLocked (j : Job) (now : Int) : Bool :=
  decide (now < j.retryWaitInMillis + j.lockedAt)

/-- `BaseJob.isAvailable()`: `Date.now() >= _availableAt`. -/
def Job.isAvailable (j : Job) (now : Int) : Bool :=
  decide (j.availableAt ≤ now)

/-- `BaseJob.isCancelled()`. -/
def Job.isCancelled (j : Job) : Bool :=
  j.cancelled

/-- Invoking the job's `onSuccess` hook. -/
def Job.onSuccess (j : Job) : Except String Unit :=
  if j.onSuccessThrows then .error "onSuccess" else .ok ()

/-- Invoking the job's `onFailure` hook. -/
def Job.onFailure (j : Job) : Except String Unit :=
  if j.onFailureThrows then .error "onFailure" else .ok ()

/-- Invoking the job's `onPermanentFailure` hook. -/
def Job.onPermanentFailure (j : Job) : Except String Unit :=
  if j.onPermanentFailureThrows then .error "onPermanentFailure" else .ok ()

/-- Trace entries: the hook invocations performed by the backend. -/
inductive Event where
  | success (id : Nat)
  | failure (id : Nat)
  | permanentFailure (id : Nat)
deriving DecidableEq, Repr

/-- The state of `MemoryQueue` (with the `BaseQueue` fields it inherits).
`concurrency` is a natural number: the constructor sets 2 and
`setConcurrency` ignores falsy (zero) values. -/
structure MemoryQueue where
  name : String
  concurrency : Nat := 2
  pollInterval : Int := 100
  jobTimeout : Int := 10000
  jobs : List Job := []
deriving DecidableEq, Repr

/-- `BaseQueue.setConcurrency`: `_concurrency = concurrentJobs || _concurrency`. -/
def MemoryQueue.setConcurrency (q : MemoryQueue) (concurrentJobs : Nat) : MemoryQueue :=
  { q with concurrency := if concurrentJobs ≠ 0 then concurrentJobs else q.concurrency }

/-- `BaseQueue.setTimeout`:
`_jobTimeout = Math.trunc(inSeconds * 1000 || this._jobTimeout)`.
(`inSeconds * 1000` is falsy exactly when it is zero.) -/
def MemoryQueue.setTimeout (q : MemoryQueue) (inSeconds : ℚ) : MemoryQueue :=
  { q with jobTimeout :=
      ratTrunc (if inSeconds * 1000 = 0 then (q.jobTimeout : ℚ) else inSeconds * 1000) }

/-- `BaseQueue.raiseEvent`: `try { return event() } catch (err) {}` —
whatever the hook does, nothing propagates. -/
def raiseEvent (event : Except String Unit) : Except String Unit :=
  match event with
  | .ok _ => .ok ()
  | .error _ => .ok ()

/-- JS `Array.prototype.indexOf`: the first index holding the element,
`-1` when absent. -/
def jsIndexOf (job : Job) : List Job → Int
  | [] => -1
  | x :: xs =>
    if x = job then 0
    else
      let r := jsIndexOf job xs
      if r = -1 then -1 else r + 1

/-- JS `Array.prototype.splice(start, 1)`: a negative `start` counts from the
end of the array; at most one element, at the resolved position, is removed. -/
def jsSplice1 (l : List Job) (start : Int) : List Job :=
  let actual : Nat :=
    if start < 0 then ((l.length : Int) + start).toNat else min start.toNat l.length
  l.take actual ++ l.drop (actual + 1)

/-- `MemoryQueue.insert`: push the job, resolve `true`. -/
def MemoryQueue.insert (q : MemoryQueue) (job : Job) : MemoryQueue × Bool :=
  ({ q with jobs := q.jobs ++ [job] }, true)

/-- `MemoryQueue.jobReadyForProcessing`. -/
def MemoryQueue.jobReadyForProcessing (now : Int) (job : Job) : Bool :=
  !job.isStillLocked now && job.isAvailable now && !job.isCancelled

/-- `MemoryQueue.getNextJobs`: filter the ready jobs, sort them by
`availableAt` (JS `Array.prototype.sort` is a stable sort, modelled by
`List.mergeSort`), and truncate to `_concurrency` when that is nonzero and
exceeded. -/
def MemoryQueue.getNextJobs (q : MemoryQueue) (now : Int) : List Job :=
  let poppedJobs :=
    (q.jobs.filter (MemoryQueue.jobReadyForProcessing now)).mergeSort
      (fun job_1 job_2 => decide (job_1.availableAt ≤ job_2.availableAt))
  if q.concurrency ≠ 0 ∧ poppedJobs.length > q.concurrency then
    poppedJobs.take q.concurrency
  else poppedJobs

/-- `MemoryQueue.removeJobFromQueue`, exactly as written in the source:
the guard is `index != 1` (not `index != -1`). -/
def MemoryQueue.removeJobFromQueue (q : MemoryQueue) (job : Job) : MemoryQueue :=
  let index := jsIndexOf job q.jobs
  if index ≠ 1 then { q with jobs := jsSplice1 q.jobs index } else q

/-- `MemoryQueue.failJob`: raise `onFailure`, resolve; the job is not removed. -/
def MemoryQueue.failJob (q : MemoryQueue) (job : Job) :
    Except String (MemoryQueue × List Event) :=
  match raiseEvent job.onFailure with
  | .ok _ => .ok (q, [Event.failure job.id])
  | .error e => .error e

/-- `MemoryQueue.failJobForever`: remove the job, raise `onPermanentFailure`,
resolve. -/
def MemoryQueue.failJobForever (q : MemoryQueue) (job : Job) :
    Except String (MemoryQueue × List Event) :=
  let q1 := q.removeJobFromQueue job
  match raiseEvent job.onPermanentFailure with
  | .ok _ => .ok (q1, [Event.permanentFailure job.id])
  | .error e => .error e

/-- `MemoryQueue.finishJob`: remove the job, raise `onSuccess`, resolve. -/
def MemoryQueue.finishJob (q : MemoryQueue) (job : Job) :
    Except String (MemoryQueue × List Event) :=
  let q1 := q.removeJobFromQueue job
  match raiseEvent job.onSuccess with
  | .ok _ => .ok (q1, [Event.success job.id])
  | .error e => .error e

/-- How `job.process()` eventually settles. -/
inductive ProcOutcome where
  | fulfills
  | rejects
deriving DecidableEq, Repr

/-- The observable calls `BaseQueue.processJob` makes. -/
inductive Action where
  | startedTimeout
  | calledProcess
  | calledFinishJob
  | calledFailJob
  | calledFailJobForever
deriving DecidableEq, Repr

/-- Result of one `processJob` run: the backend state afterwards, the hook
invocations, the calls made, and whether the inner promise was rejected
(so that the outer `.catch` routed the job to `failJob`). -/
structure ProcResult where
  queue : MemoryQueue
  events : List Event
  actions : List Action
  rejected : Bool
deriving DecidableEq, Repr

/-- Unwrap a backend operation.  The memory backend's operations never
reject (`raiseEvent` swallows every hook error; proved in
`MemoryQueue.finishJob_ok` and friends below), so the `.error` fallback
is unreachable. -/
def runOp (q : MemoryQueue) (r : Except String (MemoryQueue × List Event)) :
    MemoryQueue × List Event :=
  match r with
  | .ok x => x
  | .error _ => (q, [])

/-- `BaseQueue.processJob` over the memory backend.  The promise race between
the per-job timer and `job.process()` is resolved by the two scheduling
parameters: `res` says how `process()` eventually settles and `timerFirst`
whether the timer fires before it does.  Branches, following the source:

* `triedMaxAttempts()`: `failJobForever(job).catch(err => err).finally(resolve)` —
  no processing, no timer.
* `isCancelled()`: `resolve()` — no side effects.
* otherwise a timer is started and `process()` called:
  - timer fires first: the promise rejects `Timed out!`, so the outer
    `.catch` runs `failJob(job)`; if `process()` later fulfills, its
    `.then(() => this.finishJob(job))` continuation still runs (the chain is
    not cancelled by the outer settlement), while a late rejection is a no-op;
  - `process()` fulfills first: `finishJob(job)`, timer cleared, resolve;
  - `process()` rejects first: the promise rejects, the outer `.catch` runs
    `failJob(job)`. -/
def MemoryQueue.processJob (q : MemoryQueue) (job : Job)
    (res : ProcOutcome) (timerFirst : Bool) : ProcResult :=
  if job.triedMaxAttempts then
    let (q1, evs) := runOp q (q.failJobForever job)
    ⟨q1, evs, [Action.calledFailJobForever], false⟩
  else if job.isCancelled then
    ⟨q, [], [], false⟩
  else
    match timerFirst, res with
    | true, ProcOutcome.fulfills =>
      let (q1, evs1) := runOp q (q.failJob job)
      let (q2, evs2) := runOp q1 (q1.finishJob job)
      ⟨q2, evs1 ++ evs2,
        [Action.startedTimeout, Action.calledProcess,
         Action.calledFailJob, Action.calledFinishJob], true⟩
    | true, ProcOutcome.rejects =>
      let (q1, evs1) := runOp q (q.failJob job)
      ⟨q1, evs1,
        [Action.startedTimeout, Action.calledProcess, Action.calledFailJob], true⟩
    | false, ProcOutcome.fulfills =>
      let (q1, evs1) := runOp q (q.finishJob job)
      ⟨q1, evs1,
        [Action.startedTimeout, Action.calledProcess, Action.calledFinishJob], false⟩
    | false, ProcOutcome.rejects =>
      let (q1, evs1) := runOp q (q.failJob job)
      ⟨q1, evs1,
        [Action.startedTimeout, Action.calledProcess, Action.calledFailJob], true⟩

/-- The producer-side builder calls available on a freshly constructed job. -/
inductive BuildStep where
  | onQueue (queue : String)
  | setMaxAttempts (attempts : Int)
  | retryAfter (seconds : ℚ)
  | later (atTime : Int)
  | cancel
deriving Repr

/-- Apply one builder call. -/
def Job.applyBuild (j : Job) : BuildStep → Job
  | BuildStep.onQueue queue => j.onQueue queue
  | BuildStep.setMaxAttempts n => j.setMaxAttempts n
  | BuildStep.retryAfter s => j.retryAfter s
  | BuildStep.later t => j.later t
  | BuildStep.cancel => j.cancel

/-- A job as a producer can actually create it: the `BaseJob` constructor
followed by any sequence of builder calls. -/
def Job.build (id : Nat) (now : Int) (sThrows fThrows pThrows : Bool)
    (steps : List BuildStep) : Job :=
  steps.foldl Job.applyBuild (Job.new id now sThrows fThrows pThrows)

/-- The operations of the core that touch (or could touch) the backend's
job collection. -/
inductive QOp where
  | insert (id : Nat) (now : Int) (sThrows fThrows pThrows : Bool) (steps : List BuildStep)
  | getNext (now : Int)
  | finish (j : Job)
  | fail (j : Job)
  | failForever (j : Job)
  | processJob (j : Job) (res : ProcOutcome) (timerFirst : Bool)
  | cancelJob (j : Job)
deriving Repr

/-- State effect of one core operation on the memory backend.
`getNext` reads but never writes.  `cancelJob` is `BaseJob.cancel()` seen
from the backend: the stored job object has its `cancelled` flag set in
place. -/
def MemoryQueue.applyOp (q : MemoryQueue) : QOp → MemoryQueue
  | QOp.insert id now s f p steps => (q.insert (Job.build id now s f p steps)).1
  | QOp.getNext _ => q
  | QOp.finish j => (runOp q (q.finishJob j)).1
  | QOp.fail j => (runOp q (q.failJob j)).1
  | QOp.failForever j => (runOp q (q.failJobForever j)).1
  | QOp.processJob j res timerFirst => (q.processJob j res timerFirst).queue
  | QOp.cancelJob j => { q with jobs := q.jobs.map (fun x => if x = j then x.cancel else x) }

/-- Run a sequence of core operations from a freshly constructed queue. -/
def MemoryQueue.runOps (name : String) (ops : List QOp) : MemoryQueue :=
  ops.foldl MemoryQueue.applyOp { name := name }

/-! ### The specification's description of `getNextJobs`, for the refinement
claim about scheduling order.  These definitions follow the spec's words
("sorted ascending by `availableAt`, ties kept in insertion order"), not the
source: each eligible job is tagged with its insertion position and the tagged
jobs are arranged by the lexicographic key (availableAt, position) — an
antisymmetric order, so the arrangement is algorithm-independent. -/

/-- Lexicographic key order: `availableAt` first, insertion position second. -/
def availableAtThenInsertion (a b : Nat × Job) : Bool :=
  decide (a.2.availableAt < b.2.availableAt ∨
    (a.2.availableAt = b.2.availableAt ∧ a.1 ≤ b.1))

/-- The result claimed by the spec for `getNextJobs`: the eligible stored
jobs, sorted ascending by `availableAt` with ties kept in insertion order,
all of them when the concurrency cap is zero/unset and at most the cap
otherwise. -/
def getNextJobsSpec (q : MemoryQueue) (now : Int) : List Job :=
  let eligible := q.jobs.filter (MemoryQueue.jobReadyForProcessing now)
  let sorted := (eligible.enum.mergeSort availableAtThenInsertion).map (fun p => p.2)
  if q.concurrency = 0 then sorted else sorted.take q.concurrency

/-! ### Concrete fixtures used by witnesses and counterexamples. -/

/-- A plain job: fresh, immediately available, default settings, ids vary. -/
def jA : Job := Job.new 0 0 false false false

/-- A second plain job. -/
def jB : Job := { jA with id := 1 }

/-- A job that already hit the attempts cap. -/
def jMax : Job := { jA with id := 2, attempts := 5 }

/-- A job with `maxAttempts = 1` and `attempts = 0`. -/
def jOne : Job := { jA with id := 3, maxAttempts := 1 }

/-- A never-attempted job with a retry cooldown configured. -/
def jWait : Job := { jA with id := 4, retryWaitInMillis := 10 }

/-- A queue holding `jA` then `jB`. -/
def qAB : MemoryQueue := { name := "q", jobs := [jA, jB] }

/-- A queue holding only `jA`. -/
def qA : MemoryQueue := { name := "q", jobs := [jA] }

/-- A queue holding only `jOne`. -/
def qOne : MemoryQueue := { name := "q", jobs := [jOne] }

/-- A freshly constructed queue. -/
def qEmpty : MemoryQueue := { name := "q" }

/-! ## Helper lemmas -/

/-- `raiseEvent` swallows every hook outcome. -/
theorem raiseEvent_ok (e : Except String Unit) : raiseEvent e = .ok () := by
  cases e <;> rfl

/-- `finishJob` always resolves, with the job removed and `onSuccess` raised. -/
theorem MemoryQueue.finishJob_ok (q : MemoryQueue) (job : Job) :
    q.finishJob job = .ok (q.removeJobFromQueue job, [Event.success job.id]) := by
  unfold MemoryQueue.finishJob
  rw [raiseEvent_ok]

/-- `failJobForever` always resolves, with the job removed and
`onPermanentFailure` raised. -/
theorem MemoryQueue.failJobForever_ok (q : MemoryQueue) (job : Job) :
    q.failJobForever job = .ok (q.removeJobFromQueue job, [Event.permanentFailure job.id]) := by
  unfold MemoryQueue.failJobForever
  rw [raiseEvent_ok]

/-- `failJob` always resolves, with the state untouched and `onFailure` raised. -/
theorem MemoryQueue.failJob_ok (q : MemoryQueue) (job : Job) :
    q.failJob job = .ok (q, [Event.failure job.id]) := by
  unfold MemoryQueue.failJob
  rw [raiseEvent_ok]

/-- `ratTrunc` is the identity on integers. -/
theorem ratTrunc_intCast (n : Int) : ratTrunc (n : ℚ) = n := by
  unfold ratTrunc
  split <;> simp

/-- Builder calls never touch `attempts` or `lockedAt`. -/
theorem Job.applyBuild_attempts (j : Job) (s : BuildStep) :
    (j.applyBuild s).attempts = j.attempts ∧ (j.applyBuild s).lockedAt = j.lockedAt := by
  cases s <;> exact ⟨rfl, rfl⟩

/-- Every job a producer can build starts with `attempts = 0` and
`lockedAt = 0`. -/
theorem Job.build_fresh (id : Nat) (now : Int) (s f p : Bool) (steps : List BuildStep) :
    (Job.build id now s f p steps).attempts = 0 ∧ (Job.build id now s f p steps).lockedAt = 0 := by
  have key : ∀ (steps : List BuildStep) (j : Job),
      (steps.foldl Job.applyBuild j).attempts = j.attempts ∧
      (steps.foldl Job.applyBuild j).lockedAt = j.lockedAt := by
    intro steps
    induction steps with
    | nil => intro j; exact ⟨rfl, rfl⟩
    | cons st rest ih =>
      intro j
      rw [List.foldl_cons]
      rcases ih (j.applyBuild st) with ⟨h1, h2⟩
      rcases Job.applyBuild_attempts j st with ⟨g1, g2⟩
      exact ⟨h1.trans g1, h2.trans g2⟩
  exact key steps _

/-- `splice` only ever removes elements. -/
theorem mem_of_mem_jsSplice1 {j : Job} {l : List Job} {s : Int}
    (h : j ∈ jsSplice1 l s) : j ∈ l := by
  simp only [jsSplice1] at h
  rcases List.mem_append.mp h with h | h
  · exact List.mem_of_mem_take h
  · exact List.mem_of_mem_drop h

/-- `removeJobFromQueue` only ever removes jobs. -/
theorem mem_of_mem_removeJobFromQueue {j job : Job} {q : MemoryQueue}
    (h : j ∈ (q.removeJobFromQueue job).jobs) : j ∈ q.jobs := by
  simp only [MemoryQueue.removeJobFromQueue] at h
  split at h
  · exact mem_of_mem_jsSplice1 h
  · exact h

/-- Every job left in the backend after a `processJob` run was already
stored before it. -/
theorem processJob_queue_mem {q : MemoryQueue} {job x : Job} {res : ProcOutcome} {tf : Bool}
    (h : x ∈ (q.processJob job res tf).queue.jobs) : x ∈ q.jobs := by
  simp only [MemoryQueue.processJob, MemoryQueue.failJobForever_ok, MemoryQueue.failJob_ok,
    MemoryQueue.finishJob_ok, runOp] at h
  split at h
  · exact mem_of_mem_removeJobFromQueue h
  · split at h
    · exact h
    · split at h
      · exact mem_of_mem_removeJobFromQueue h
      · exact h
      · exact mem_of_mem_removeJobFromQueue h
      · exact h

/-- Each core operation preserves the all-jobs-fresh invariant. -/
theorem applyOp_preserves {q : MemoryQueue} (op : QOp)
    (h : ∀ j ∈ q.jobs, j.attempts = 0 ∧ j.lockedAt = 0) :
    ∀ j ∈ (q.applyOp op).jobs, j.attempts = 0 ∧ j.lockedAt = 0 := by
  intro j hj
  cases op with
  | insert id now s f p steps =>
    simp only [MemoryQueue.applyOp, MemoryQueue.insert] at hj
    rcases List.mem_append.mp hj with hj | hj
    · exact h j hj
    · rw [List.mem_singleton.mp hj]
      exact Job.build_fresh id now s f p steps
  | getNext now => exact h j hj
  | finish jb =>
    simp only [MemoryQueue.applyOp, MemoryQueue.finishJob_ok, runOp] at hj
    exact h j (mem_of_mem_removeJobFromQueue hj)
  | fail jb =>
    simp only [MemoryQueue.applyOp, MemoryQueue.failJob_ok, runOp] at hj
    exact h j hj
  | failForever jb =>
    simp only [MemoryQueue.applyOp, MemoryQueue.failJobForever_ok, runOp] at hj
    exact h j (mem_of_mem_removeJobFromQueue hj)
  | processJob jb res tf =>
    exact h j (processJob_queue_mem hj)
  | cancelJob jb =>
    simp only [MemoryQueue.applyOp] at hj
    rcases List.mem_map.mp hj with ⟨x, hx, hfx⟩
    rcases h x hx with ⟨h1, h2⟩
    rw [← hfx]
    by_cases hxj : x = jb
    · rw [if_pos hxj]
      exact ⟨h1, h2⟩
    · rw [if_neg hxj]
      exact ⟨h1, h2⟩

/-- Along every reachable state of the core, stored jobs keep
`attempts = 0` and `lockedAt = 0`. -/
theorem runOps_invariant (name : String) (ops : List QOp) :
    ∀ j ∈ (MemoryQueue.runOps name ops).jobs, j.attempts = 0 ∧ j.lockedAt = 0 := by
  have key : ∀ (ops : List QOp) (q : MemoryQueue),
      (∀ j ∈ q.jobs, j.attempts = 0 ∧ j.lockedAt = 0) →
      ∀ j ∈ (ops.foldl MemoryQueue.applyOp q).jobs, j.attempts = 0 ∧ j.lockedAt = 0 := by
    intro ops
    induction ops with
    | nil => intro q hq; exact hq
    | cons op rest ih =>
      intro q hq
      rw [List.foldl_cons]
      exact ih _ (applyOp_preserves op hq)
  exact key ops _ (by intro j hj; exact absurd hj (List.not_mem_nil j))

/-- The stored-job order used by the source sort agrees with the
lexicographic (availableAt, insertion position) order of the spec. -/
theorem availableAtThenInsertion_eq_enumLE :
    availableAtThenInsertion
      = List.enumLE (fun a b : Job => decide (a.availableAt ≤ b.availableAt)) := by
  funext a b
  simp only [availableAtThenInsertion, List.enumLE]
  by_cases h1 : a.2.availableAt ≤ b.2.availableAt
  · by_cases h2 : b.2.availableAt ≤ a.2.availableAt
    · have heq := le_antisymm h1 h2
      simp [h1, h2, decide_eq_decide, heq, lt_irrefl]
    · simp [h1, h2, decide_eq_decide]
      omega
  · by_cases h2 : b.2.availableAt ≤ a.2.availableAt
    · simp [h1, h2, decide_eq_decide]
      omega
    · simp [h1, h2, decide_eq_decide]
      omega

/-! ## Claim theorems -/

/-- C1: the claim says that after `finishJob(j)` the job is absent from the
backend's storage regardless of its position in the storage list.  The code
violates this: the guard in `removeJobFromQueue` reads `index != 1` instead
of `index != -1`, so a job stored at index 1 is never removed (while
`onSuccess` is still raised exactly once).  A job at index 0 is removed as
specified, isolating the bug to index 1. -/
theorem finishJob_keeps_job_at_index_one :
    runOp qAB (qAB.finishJob jB) = (qAB, [Event.success 1]) ∧
    jB ∈ (runOp qAB (qAB.finishJob jB)).1.jobs ∧
    runOp qAB (qAB.finishJob jA) = ({ qAB with jobs := [jB] }, [Event.success 0]) := by
  decide

/-- C2: the claim says that after `failJobForever(j)` the job is absent and
never re-offered by `getNextJobs()`.  For a job stored at index 1 the
`index != 1` guard skips the removal, the state is unchanged (though
`onPermanentFailure` is raised exactly once), and the very next
`getNextJobs()` call re-offers the job. -/
theorem failJobForever_keeps_and_reoffers_index_one :
    runOp qAB (qAB.failJobForever jB) = (qAB, [Event.permanentFailure 1]) ∧
    jB ∈ (runOp qAB (qAB.failJobForever jB)).1.getNextJobs 0 := by
  have hstate : (runOp qAB (qAB.failJobForever jB)).1 = qAB := by decide
  refine ⟨by decide, ?_⟩
  rw [hstate]
  unfold MemoryQueue.getNextJobs
  have hf : List.filter (MemoryQueue.jobReadyForProcessing 0) qAB.jobs = [jA, jB] := rfl
  rw [hf]
  have hs : List.Pairwise (fun job_1 job_2 =>
      (decide (job_1.availableAt ≤ job_2.availableAt)) = true) [jA, jB] := by decide
  rw [List.mergeSort_of_sorted hs]
  decide

/-- C3: `getNextJobs` returns exactly the stored jobs passing the
eligibility filter (`isAvailable`, not `isStillLocked`, not `isCancelled`),
sorted ascending by `availableAt` with ties kept in insertion order, all of
them when the concurrency cap is zero and at most the cap otherwise. -/
theorem getNextJobs_matches_spec (q : MemoryQueue) (now : Int) :
    q.getNextJobs now = getNextJobsSpec q now ∧
    (q.concurrency ≠ 0 → (q.getNextJobs now).length ≤ q.concurrency) := by
  constructor
  · simp only [MemoryQueue.getNextJobs, getNextJobsSpec]
    rw [availableAtThenInsertion_eq_enumLE, List.mergeSort_enum]
    set popped := (q.jobs.filter (MemoryQueue.jobReadyForProcessing now)).mergeSort
        (fun job_1 job_2 => decide (job_1.availableAt ≤ job_2.availableAt)) with hp
    by_cases hc : q.concurrency = 0
    · simp [hc]
    · by_cases hl : popped.length > q.concurrency
      · simp [hc, hl]
      · simp [hc, hl, List.take_of_length_le (le_of_not_lt hl)]
  · intro hc
    unfold MemoryQueue.getNextJobs
    set popped := (q.jobs.filter (MemoryQueue.jobReadyForProcessing now)).mergeSort
        (fun job_1 job_2 => decide (job_1.availableAt ≤ job_2.availableAt)) with hp
    by_cases hl : popped.length > q.concurrency
    · rw [if_pos ⟨hc, hl⟩, List.length_take]
      exact Nat.min_le_left _ _
    · rw [if_neg (fun hand => hl hand.2)]
      exact le_of_not_lt hl

/-- Witness for C3 at a concrete queue with a nonzero concurrency cap. -/
theorem getNextJobs_matches_spec_witness :
    qAB.getNextJobs 0 = getNextJobsSpec qAB 0 ∧
    (qAB.getNextJobs 0).length ≤ qAB.concurrency :=
  ⟨(getNextJobs_matches_spec qAB 0).1, (getNextJobs_matches_spec qAB 0).2 (by decide)⟩

/-- C4: a job with `attempts ≥ maxAttempts` at dispatch is routed to
`failJobForever` and nothing else happens: `process()` is never invoked and
no timeout timer is started, whatever the schedule would have been. -/
theorem processJob_exhausted_routes_to_failJobForever (q : MemoryQueue) (j : Job)
    (res : ProcOutcome) (tf : Bool) (h : j.maxAttempts ≤ j.attempts) :
    (q.processJob j res tf).actions = [Action.calledFailJobForever] ∧
    Action.calledProcess ∉ (q.processJob j res tf).actions ∧
    Action.startedTimeout ∉ (q.processJob j res tf).actions ∧
    (q.processJob j res tf).queue = q.removeJobFromQueue j ∧
    (q.processJob j res tf).events = [Event.permanentFailure j.id] := by
  have ht : j.triedMaxAttempts = true := decide_eq_true h
  simp [MemoryQueue.processJob, ht, MemoryQueue.failJobForever_ok, runOp]

/-- Witness for C4: a job that already used its five attempts. -/
theorem processJob_exhausted_witness :
    jMax.maxAttempts ≤ jMax.attempts ∧
    (qAB.processJob jMax ProcOutcome.fulfills false).actions = [Action.calledFailJobForever] :=
  ⟨by decide,
    (processJob_exhausted_routes_to_failJobForever qAB jMax ProcOutcome.fulfills false
      (by decide)).1⟩

/-- C5 counterexample: the claim asserts that when the timer fires before
`process()` settles, a late successful completion does not call `finishJob`
and does not raise `onSuccess`.  The code does both: the
`.then(() => this.finishJob(job))` continuation of `process()` runs even
though the outer promise already rejected, so the job is removed and
`onSuccess` raised in addition to the recorded failure. -/
theorem processJob_late_success_calls_finishJob :
    Action.calledFinishJob ∈ (qA.processJob jA ProcOutcome.fulfills true).actions ∧
    Event.success jA.id ∈ (qA.processJob jA ProcOutcome.fulfills true).events ∧
    (qA.processJob jA ProcOutcome.fulfills true).queue.jobs = [] := by
  decide

/-- C5 amended: if the timer fires before `process()` settles, `processJob`
records a failure outcome — the inner promise rejects and the outer catch
runs `failJob`, raising `onFailure` — and a late successful completion does
not change that outcome; it does however additionally run `finishJob`
(removing the job and raising `onSuccess`). -/
theorem processJob_timeout_records_failure (q : MemoryQueue) (j : Job) (res : ProcOutcome)
    (h1 : ¬ j.maxAttempts ≤ j.attempts) (h2 : j.cancelled = false) :
    (q.processJob j res true).rejected = true ∧
    Action.calledFailJob ∈ (q.processJob j res true).actions ∧
    Event.failure j.id ∈ (q.processJob j res true).events ∧
    (res = ProcOutcome.fulfills →
      Action.calledFinishJob ∈ (q.processJob j res true).actions ∧
      Event.success j.id ∈ (q.processJob j res true).events) := by
  have ht : j.triedMaxAttempts = false := decide_eq_false h1
  have hc : j.isCancelled = false := h2
  cases res <;>
    simp [MemoryQueue.processJob, ht, hc, MemoryQueue.failJob_ok, MemoryQueue.finishJob_ok,
      runOp]

/-- Witness for C5 (amended) at a fresh job whose `process()` fulfills late. -/
theorem processJob_timeout_records_failure_witness :
    ¬ jA.maxAttempts ≤ jA.attempts ∧ jA.cancelled = false ∧
    Action.calledFailJob ∈ (qA.processJob jA ProcOutcome.fulfills true).actions :=
  ⟨by decide, rfl,
    (processJob_timeout_records_failure qA jA ProcOutcome.fulfills (by decide) rfl).2.1⟩

/-- C6: the claim expects a `maxAttempts = 1` job whose `process()` rejected
to be routed to `failJobForever` in the next cycle, its attempt counter
having reached 1.  The code never increments `_attempts`: the failing cycle
leaves the backend state exactly as it was, `triedMaxAttempts()` is still
false, the job is re-offered, and the next dispatch again starts a timer and
calls `process()` — `failJobForever` is never reached. -/
theorem retry_cycle_never_reaches_failJobForever :
    (qOne.processJob jOne ProcOutcome.rejects false).queue = qOne ∧
    (qOne.processJob jOne ProcOutcome.rejects false).actions
      = [Action.startedTimeout, Action.calledProcess, Action.calledFailJob] ∧
    jOne.attempts = 0 ∧
    jOne.triedMaxAttempts = false ∧
    qOne.getNextJobs 0 = [jOne] ∧
    Action.calledFailJobForever ∉ (qOne.processJob jOne ProcOutcome.rejects false).actions := by
  refine ⟨by decide, by decide, by decide, by decide, ?_, by decide⟩
  unfold MemoryQueue.getNextJobs
  have hf : List.filter (MemoryQueue.jobReadyForProcessing 0) qOne.jobs = [jOne] := rfl
  rw [hf, List.mergeSort_singleton]
  decide

/-- C7: starting from a fresh queue, no sequence of core operations
(insert of built jobs, getNextJobs, processJob, failJob, failJobForever,
finishJob, cancel) ever produces a stored job whose `attempts` or `lockedAt`
differs from its initial 0; consequently `triedMaxAttempts()` only depends
on `maxAttempts` and the retry cooldown is measured from `lockedAt = 0`. -/
theorem stored_jobs_never_attempted (name : String) (ops : List QOp) (j : Job) (now : Int)
    (h : j ∈ (MemoryQueue.runOps name ops).jobs) :
    j.attempts = 0 ∧ j.lockedAt = 0 ∧
    j.triedMaxAttempts = decide (j.maxAttempts ≤ 0) ∧
    j.isStillLocked now = decide (now < j.retryWaitInMillis) := by
  rcases runOps_invariant name ops j h with ⟨h1, h2⟩
  refine ⟨h1, h2, ?_, ?_⟩
  · unfold Job.triedMaxAttempts
    rw [h1]
  · unfold Job.isStillLocked
    rw [h2, add_zero]

/-- Witness for C7: one inserted job in a fresh queue. -/
theorem stored_jobs_never_attempted_witness :
    Job.new 7 0 false false false ∈
      (MemoryQueue.runOps "q" [QOp.insert 7 0 false false false []]).jobs ∧
    (Job.new 7 0 false false false).attempts = 0 ∧
    (Job.new 7 0 false false false).lockedAt = 0 :=
  ⟨by decide,
    (stored_jobs_never_attempted "q" [QOp.insert 7 0 false false false []]
      (Job.new 7 0 false false false) 5 (by decide)).1,
    (stored_jobs_never_attempted "q" [QOp.insert 7 0 false false false []]
      (Job.new 7 0 false false false) 5 (by decide)).2.1⟩

/-- C8 counterexample: the claim says a job with `lockedAt = 0` is never
still locked, for every retry wait and every current time.  `isStillLocked`
computes `now < retryWaitInMillis + lockedAt`, so a never-attempted job with
`retryWaitInMillis = 10` is reported still locked at time 5. -/
theorem isStillLocked_zero_lock_cex :
    jWait.lockedAt = 0 ∧ jWait.isStillLocked 5 = true := by
  decide

/-- C8 amended: a job with `lockedAt = 0` is not still locked whenever the
current time is at least its `retryWaitInMillis` (in particular always, for
any realistic epoch-milliseconds clock and configured wait). -/
theorem isStillLocked_zero_lock (j : Job) (now : Int)
    (h1 : j.lockedAt = 0) (h2 : j.retryWaitInMillis ≤ now) :
    j.isStillLocked now = false := by
  unfold Job.isStillLocked
  rw [h1, add_zero]
  exact decide_eq_false (not_lt.mpr h2)

/-- Witness for C8 (amended): a fresh job with no retry wait. -/
theorem isStillLocked_zero_lock_witness :
    jA.lockedAt = 0 ∧ jA.retryWaitInMillis ≤ 0 ∧ jA.isStillLocked 0 = false :=
  ⟨rfl, by decide, isStillLocked_zero_lock jA 0 rfl (by decide)⟩

/-- C9: for every job — in particular one whose `onSuccess`, `onFailure` or
`onPermanentFailure` hook throws — `raiseEvent` swallows the error, and the
outcome operations still resolve with their state change applied: the
removal in `finishJob`/`failJobForever` takes effect and each operation
returns a resolved result, so nothing can crash the poll loop. -/
theorem hook_errors_never_escape (q : MemoryQueue) (j : Job) :
    raiseEvent j.onSuccess = .ok () ∧
    raiseEvent j.onFailure = .ok () ∧
    raiseEvent j.onPermanentFailure = .ok () ∧
    q.finishJob j = .ok (q.removeJobFromQueue j, [Event.success j.id]) ∧
    q.failJobForever j = .ok (q.removeJobFromQueue j, [Event.permanentFailure j.id]) ∧
    q.failJob j = .ok (q, [Event.failure j.id]) :=
  ⟨raiseEvent_ok _, raiseEvent_ok _, raiseEvent_ok _,
    MemoryQueue.finishJob_ok q j, MemoryQueue.failJobForever_ok q j,
    MemoryQueue.failJob_ok q j⟩

/-- C10 counterexample: the claim says non-positive inputs to `setTimeout`
are ignored.  `-1 * 1000 = -1000` is truthy in the source's
`inSeconds * 1000 || this._jobTimeout`, so `setTimeout(-1)` sets the job
timeout to `Math.trunc(-1000) = -1000` instead of retaining 10000. -/
theorem setTimeout_negative_cex :
    (qEmpty.setTimeout (-1)).jobTimeout = -1000 ∧ qEmpty.jobTimeout = 10000 := by
  constructor
  · show ratTrunc (if (-1 : ℚ) * 1000 = 0 then ((10000 : ℤ) : ℚ) else (-1 : ℚ) * 1000) = -1000
    rw [if_neg (by norm_num), show ((-1 : ℚ) * 1000) = ((-1000 : ℤ) : ℚ) by norm_num,
      ratTrunc_intCast]
  · rfl

/-- C10 amended: a positive `s` sets the per-job timeout to
`trunc(s * 1000)` milliseconds; a negative `s` is NOT ignored and likewise
sets `trunc(s * 1000)` (a negative value); only `s = 0` is ignored, the
previous timeout being retained. -/
theorem setTimeout_spec (q : MemoryQueue) (s : ℚ) :
    (0 < s → (q.setTimeout s).jobTimeout = ratTrunc (s * 1000)) ∧
    (s < 0 → (q.setTimeout s).jobTimeout = ratTrunc (s * 1000)) ∧
    (s = 0 → (q.setTimeout s).jobTimeout = q.jobTimeout) := by
  refine ⟨?_, ?_, ?_⟩
  · intro h
    have hne : s * 1000 ≠ 0 := ne_of_gt (by positivity)
    show ratTrunc (if s * 1000 = 0 then (q.jobTimeout : ℚ) else s * 1000) = ratTrunc (s * 1000)
    rw [if_neg hne]
  · intro h
    have hne : s * 1000 ≠ 0 := ne_of_lt (mul_neg_of_neg_of_pos h (by norm_num))
    show ratTrunc (if s * 1000 = 0 then (q.jobTimeout : ℚ) else s * 1000) = ratTrunc (s * 1000)
    rw [if_neg hne]
  · intro h
    subst h
    show ratTrunc (if (0 : ℚ) * 1000 = 0 then (q.jobTimeout : ℚ) else (0 : ℚ) * 1000)
      = q.jobTimeout
    rw [if_pos (by norm_num), ratTrunc_intCast]

/-- Witness for C10 (amended): two seconds become 2000 milliseconds. -/
theorem setTimeout_spec_witness :
    (0 : ℚ) < 2 ∧ (qEmpty.setTimeout 2).jobTimeout = ratTrunc ((2 : ℚ) * 1000) :=
  ⟨by norm_num, (setTimeout_spec qEmpty 2).1 (by norm_num)⟩

end RheasQueue
